import Mathlib

/-!
# Verification of the Lawgorithm dual-index retrieval engine

Shallow embedding of the retrieval core of the Lawgorithm legal-bot repository:

* `DRP` — `langgraph_petition_system/rag_systems/dual_rag_processor.py`
  (`DualRAGProcessor`): index build and search, no vector normalization.
* `ODI` — `rag_ready/optimized_dual_rag_interface.py`
  (`OptimizedDualRAGInterface`): load, pre-filtering, cached dual search,
  context assembly.
* `VS` — `rag/vector.py` (`VectorStore`): embedding fetch with silent
  hash-derived fallback.

Vectors are modelled as lists of rationals (exact arithmetic in place of
float32); the FAISS `IndexFlatIP.search` primitive is modelled exactly:
scores are inner products of the query with every stored vector, results
are the top-`k` in descending score order, and when `k` exceeds the number
of stored vectors FAISS pads the remaining slots with label `-1` and score
`-FLT_MAX` (modelled by the constant `padScore`).
-/

set_option maxHeartbeats 1000000

abbrev Vec := List ℚ

/-- Inner product of two vectors, exactly as FAISS `IndexFlatIP` computes it
(componentwise product, summed; trailing components of the longer vector are
ignored, which never occurs for equal-dimension vectors). -/
def dot (v w : Vec) : ℚ := (List.zipWith (· * ·) v w).sum

/-- Squared L2 norm `‖v‖₂²`. -/
def normSq (v : Vec) : ℚ := dot v v

@[simp] theorem dot_nil (w : Vec) : dot [] w = 0 := rfl

@[simp] theorem dot_nil_right (v : Vec) : dot v [] = 0 := by
  cases v <;> rfl

@[simp] theorem dot_cons (a b : ℚ) (v w : Vec) :
    dot (a :: v) (b :: w) = a * b + dot v w := by
  simp [dot, List.zipWith]

theorem normSq_nonneg (v : Vec) : 0 ≤ normSq v := by
  induction v with
  | nil => simp [normSq]
  | cons a v ih =>
    have : normSq (a :: v) = a * a + normSq v := by simp [normSq]
    rw [this]
    have := mul_self_nonneg a
    linarith

/-- Cauchy–Schwarz for the list inner product: `⟨v,w⟩² ≤ ‖v‖²·‖w‖²`. -/
theorem dot_sq_le (v w : Vec) : (dot v w) ^ 2 ≤ normSq v * normSq w := by
  induction v generalizing w with
  | nil => simp [normSq]
  | cons a v ih =>
    cases w with
    | nil =>
      have h1 : (0:ℚ) ≤ normSq (a :: v) := normSq_nonneg _
      simp [normSq]
    | cons b w =>
      have hvw := ih w
      have hv : 0 ≤ normSq v := normSq_nonneg v
      have hw : 0 ≤ normSq w := normSq_nonneg w
      have ev : normSq (a :: v) = a * a + normSq v := by simp [normSq]
      have ew : normSq (b :: w) = b * b + normSq w := by simp [normSq]
      rw [dot_cons, ev, ew]
      rcases eq_or_lt_of_le hv with h0 | hpos
      · have hd0 : dot v w = 0 := by
          have h1 : dot v w ^ 2 ≤ 0 := by
            calc dot v w ^ 2 ≤ normSq v * normSq w := hvw
            _ = 0 := by rw [← h0]; ring
          have h2 : (0:ℚ) ≤ dot v w ^ 2 := sq_nonneg _
          have h3 : dot v w ^ 2 = 0 := le_antisymm h1 h2
          exact sq_eq_zero_iff.mp h3
        rw [hd0, ← h0]
        have h4 : 0 ≤ a * a * normSq w := by
          exact mul_nonneg (mul_self_nonneg a) hw
        nlinarith [mul_self_nonneg b]
      · nlinarith [sq_nonneg (a * dot v w - b * normSq v),
                   mul_nonneg (by nlinarith [mul_self_nonneg a] :
                     (0:ℚ) ≤ a * a + normSq v) (sub_nonneg.mpr hvw), hpos]

/-! ## Stable descending sort (model of FAISS exact top-k ordering) -/

/-- Insert into a descending-sorted list of `(score, index)` pairs, keeping
earlier elements first on ties (stable). -/
def insertDesc (x : ℚ × Int) : List (ℚ × Int) → List (ℚ × Int)
  | [] => [x]
  | y :: ys => if y.1 ≤ x.1 then x :: y :: ys else y :: insertDesc x ys

/-- Stable insertion sort by descending score. -/
def sortDesc : List (ℚ × Int) → List (ℚ × Int)
  | [] => []
  | x :: xs => insertDesc x (sortDesc xs)

theorem mem_insertDesc {z x : ℚ × Int} {l : List (ℚ × Int)} :
    z ∈ insertDesc x l ↔ z = x ∨ z ∈ l := by
  induction l with
  | nil => simp [insertDesc]
  | cons y ys ih =>
    by_cases h : y.1 ≤ x.1
    · simp [insertDesc, h]
    · simp only [insertDesc, if_neg h, List.mem_cons, ih]
      tauto

theorem mem_sortDesc {z : ℚ × Int} {l : List (ℚ × Int)} :
    z ∈ sortDesc l ↔ z ∈ l := by
  induction l with
  | nil => simp [sortDesc]
  | cons x xs ih => simp [sortDesc, mem_insertDesc, ih]

theorem length_insertDesc (x : ℚ × Int) (l : List (ℚ × Int)) :
    (insertDesc x l).length = l.length + 1 := by
  induction l with
  | nil => rfl
  | cons y ys ih =>
    by_cases h : y.1 ≤ x.1 <;> simp [insertDesc, h, ih]

theorem length_sortDesc (l : List (ℚ × Int)) :
    (sortDesc l).length = l.length := by
  induction l with
  | nil => rfl
  | cons x xs ih => simp [sortDesc, length_insertDesc, ih]

/-- Descending order on score pairs. -/
def scoreGE (x y : ℚ × Int) : Prop := y.1 ≤ x.1

theorem pairwise_insertDesc {x : ℚ × Int} {l : List (ℚ × Int)}
    (h : l.Pairwise scoreGE) : (insertDesc x l).Pairwise scoreGE := by
  induction l with
  | nil => simp [insertDesc]
  | cons y ys ih =>
    rcases List.pairwise_cons.mp h with ⟨hy, hys⟩
    by_cases hc : y.1 ≤ x.1
    · rw [insertDesc, if_pos hc]
      refine List.pairwise_cons.mpr ⟨?_, h⟩
      intro z hz
      rcases List.mem_cons.mp hz with rfl | hz
      · exact hc
      · exact le_trans (hy z hz) hc
    · rw [insertDesc, if_neg hc]
      refine List.pairwise_cons.mpr ⟨?_, ih hys⟩
      intro z hz
      rcases mem_insertDesc.mp hz with rfl | hz
      · exact le_of_lt (lt_of_not_le hc)
      · exact hy z hz

theorem pairwise_sortDesc (l : List (ℚ × Int)) :
    (sortDesc l).Pairwise scoreGE := by
  induction l with
  | nil => simp [sortDesc]
  | cons x xs ih => exact pairwise_insertDesc ih

/-! ## The FAISS `IndexFlatIP.search` primitive -/

/-- Model of float32 `-FLT_MAX`, the score FAISS reports for padding slots
when `k` exceeds the number of stored vectors (any finite float score of a
real result is at least this value). -/
def padScore : ℚ := -(2 ^ 128)

/-- `index.search(q, k)` on a flat inner-product index holding `stored`:
score every stored vector against the query, return the top `k` slots as
`(score, index)` pairs in descending score order; if fewer than `k` vectors
are stored the remaining slots are padded with `(-FLT_MAX, -1)`. -/
def faissSearch (stored : List Vec) (qv : Vec) (k : Nat) : List (ℚ × Int) :=
  let scored := ((List.range stored.length).zip stored).map
    (fun p => (dot qv p.2, (p.1 : Int)))
  let top := (sortDesc scored).take k
  top ++ List.replicate (k - top.length) (padScore, -1)

/-! ## Documents and Python-side result assembly -/

/-- A document/chunk record as stored in the parallel JSON document arrays.

Only the keys the retrieval code reads are modelled: `title` and `court`
are accessed with `doc.get(key, '')` (a missing key is `none`), `text` with
`doc.get('text', '')` (a missing key is modelled as `""`). -/
structure Doc where
  title : Option String := none
  court : Option String := none
  text : String := ""
deriving DecidableEq, Repr

/-- One entry of the result list built by `search_structure` /
`search_content`: the matched document plus the `score` and 1-based `rank`
fields the Python code adds to the copied dict. -/
structure SearchHit where
  doc : Doc
  score : ℚ
  rank : Nat
deriving DecidableEq, Repr

/-- Python list indexing `l[i]`: non-negative indices from the front,
negative indices from the back; `none` models the `IndexError` raised when
the index is out of range. -/
def pyGet {α : Type} (l : List α) (i : Int) : Option α :=
  if 0 ≤ i then l.get? i.toNat
  else
    let j : Int := (l.length : Int) + i
    if 0 ≤ j then l.get? j.toNat else none

/-- The result-building loop shared by every `search_*` method:

    for i, (score, idx) in enumerate(zip(scores[0], indices[0])):
        if idx < len(docs):
            doc = docs[idx].copy()
            doc['score'] = float(score)
            doc['rank'] = i + 1
            results.append(doc)

`i` counts every slot (accepted or not); `docs[idx]` uses Python indexing
and can raise `IndexError` (modelled as `.error`). -/
def buildResultsAux (docs : List Doc) : List (ℚ × Int) → Nat → Except String (List SearchHit)
  | [], _ => .ok []
  | (s, idx) :: rest, i =>
    if idx < (docs.length : Int) then
      match pyGet docs idx with
      | none => .error "IndexError: list index out of range"
      | some d =>
        match buildResultsAux docs rest (i + 1) with
        | .error e => .error e
        | .ok tail => .ok ({ doc := d, score := s, rank := i + 1 } :: tail)
    else buildResultsAux docs rest (i + 1)

def buildResults (docs : List Doc) (slots : List (ℚ × Int)) :
    Except String (List SearchHit) :=
  buildResultsAux docs slots 0

/-- Common body of `search_structure` / `search_content` (both classes):
absent (`None`) index returns `[]` immediately; otherwise FAISS search with
the query vector followed by the result-building loop. -/
def searchIndex (index : Option (List Vec)) (docs : List Doc) (qv : Vec)
    (k : Nat) : Except String (List SearchHit) :=
  match index with
  | none => .ok []
  | some stored => buildResults docs (faissSearch stored qv k)

/-! ## `DualRAGProcessor` (langgraph_petition_system/rag_systems/dual_rag_processor.py) -/

namespace DRP

/-- The vector-store fields of a `DualRAGProcessor`: `None` index means
"not built"; the parallel document list starts empty. -/
structure State where
  structure_index : Option (List Vec) := none
  content_index : Option (List Vec) := none
  structure_documents : List Doc := []
  content_documents : List Doc := []
deriving DecidableEq

/-- Fresh processor: both indexes `None`, both document lists empty. -/
def init : State := {}

/-- `build_structure_index`: on an empty chunk list it logs a warning and
returns leaving the index unbuilt; otherwise it stores the chunks as the
document array and adds the raw encoder embeddings of the chunk texts to a
fresh `IndexFlatIP` — no L2 normalization is applied to the embeddings.
`enc` is the external `SentenceTransformer.encode` for the structure model. -/
def build_structure_index (enc : String → Vec) (st : State)
    (structure_chunks : List Doc) : State :=
  if structure_chunks.isEmpty then st
  else { st with
          structure_documents := structure_chunks,
          structure_index := some (structure_chunks.map (fun c => enc c.text)) }

/-- `build_content_index`: identical shape for the content side. -/
def build_content_index (enc : String → Vec) (st : State)
    (content_chunks : List Doc) : State :=
  if content_chunks.isEmpty then st
  else { st with
          content_documents := content_chunks,
          content_index := some (content_chunks.map (fun c => enc c.text)) }

/-- `DualRAGProcessor.search_structure`: encodes the query with the raw
encoder — no `faiss.normalize_L2` call on either side — then searches. -/
def search_structure (enc : String → Vec) (st : State) (query : String)
    (k : Nat) : Except String (List SearchHit) :=
  searchIndex st.structure_index st.structure_documents (enc query) k

/-- `DualRAGProcessor.search_content`: same, content side. -/
def search_content (enc : String → Vec) (st : State) (query : String)
    (k : Nat) : Except String (List SearchHit) :=
  searchIndex st.content_index st.content_documents (enc query) k

end DRP

/-! ## `OptimizedDualRAGInterface` (rag_ready/optimized_dual_rag_interface.py) -/

namespace ODI

/-- The index/document fields of an `OptimizedDualRAGInterface` after
`load_indexes`. -/
structure State where
  structure_index : Option (List Vec) := none
  content_index : Option (List Vec) := none
  structure_documents : List Doc := []
  content_documents : List Doc := []
deriving DecidableEq

/-- The on-disk artifacts `load_indexes` reads: a `.faiss` file (present or
absent; contents modelled as the stored vectors) and the parallel
`*_documents.json` array for each side. -/
structure IndexFiles where
  structure_faiss : Option (List Vec) := none
  structure_documents_json : List Doc := []
  content_faiss : Option (List Vec) := none
  content_documents_json : List Doc := []

/-- `load_indexes`: if the `.faiss` file exists, read the index and then the
documents JSON; otherwise set the index to `None` and the documents to `[]`.
No comparison between document-array length and index cardinality is made
anywhere in the function. -/
def load_indexes (fs : IndexFiles) : State :=
  { structure_index := fs.structure_faiss,
    structure_documents :=
      match fs.structure_faiss with
      | some _ => fs.structure_documents_json
      | none => [],
    content_index := fs.content_faiss,
    content_documents :=
      match fs.content_faiss with
      | some _ => fs.content_documents_json
      | none => [] }

/-- Substring test, Python's `sub in s`. -/
def strContains (s sub : String) : Bool := decide (sub.toList <:+: s.toList)

/-- Python `s.lower()`: lowercase every character (written over the
character list so that concrete instances evaluate structurally). -/
def strLower (s : String) : String := String.mk (s.data.map Char.toLower)

/-- `re.findall(r'\b\w+\b', s)`: maximal runs of word characters
(alphanumeric or underscore; ASCII, as in all corpus/query text used here). -/
def wordsOf (s : String) : List String :=
  ((s.toList.splitOnP (fun c => !(c.isAlphanum || c == '_'))).filter
    (fun l => !l.isEmpty)).map (fun l => String.mk l)

/-- The fixed case-type taxonomy of `extract_case_type`, in the Python
dict's insertion order (the order the loop probes them). -/
def case_types_taxonomy : List (String × List String) :=
  [("contract", ["contract", "agreement", "breach"]),
   ("criminal", ["criminal", "bail", "appeal", "conviction"]),
   ("civil", ["civil", "property", "damages"]),
   ("constitutional", ["constitutional", "fundamental", "rights"]),
   ("family", ["family", "divorce", "custody"]),
   ("commercial", ["commercial", "business", "corporate"])]

/-- `extract_case_type(title)`: lowercase the title, return the first case
type any of whose keywords occurs as a substring, else `None`. -/
def extract_case_type (title : String) : Option String :=
  let title_lower := strLower title
  (case_types_taxonomy.find?
    (fun p => p.2.any (fun kw => strContains title_lower kw))).map (fun p => p.1)

/-- `build_filters`, courts facet: every `doc['court']` value present in a
structure or content document (the set's iteration order is irrelevant to
how `pre_filter_documents` uses it: emptiness and membership only). -/
def metadata_courts (st : State) : List String :=
  (st.structure_documents ++ st.content_documents).filterMap (fun d => d.court)

/-- The per-chunk score of `pre_filter_documents`: +3 when the query has a
case type and the document title yields the same one, +2 when some court
mentioned in the query matches the document's court (case-insensitively),
+0.5 for each query keyword occurring in `title + ' ' + text` lowercased. -/
def chunk_score (case_type : Option String) (courts : List String)
    (keywords : List String) (d : Doc) : ℚ :=
  let caseBonus : ℚ :=
    if case_type.isSome ∧ extract_case_type (d.title.getD "") = case_type
    then 3 else 0
  let courtBonus : ℚ :=
    if ¬courts.isEmpty ∧
        (courts.map strLower).contains (strLower (d.court.getD ""))
    then 2 else 0
  let doc_lower := strLower (d.title.getD "" ++ " " ++ d.text)
  let keyword_matches : Nat :=
    (keywords.filter (fun kw => strContains doc_lower kw)).length
  caseBonus + courtBonus + (keyword_matches : ℚ) * (1 / 2)

/-- One side of the pre-filter loop: indices (in order) of documents with a
strictly positive score. -/
def pre_filter_side (score : Doc → ℚ) : List Doc → Nat → List Nat
  | [], _ => []
  | d :: ds, i =>
    if 0 < score d then i :: pre_filter_side score ds (i + 1)
    else pre_filter_side score ds (i + 1)

/-- `pre_filter_documents(query)`: extract keywords, case type and court
mentions from the query, then score every structure and content document,
returning the indices of those scoring above zero. -/
def pre_filter_documents (st : State) (query : String) : List Nat × List Nat :=
  let query_lower := strLower query
  let keywords := wordsOf query_lower
  let case_type := extract_case_type query
  let courts := (metadata_courts st).filter
    (fun c => strContains query_lower (strLower c))
  (pre_filter_side (chunk_score case_type courts keywords)
      st.structure_documents 0,
   pre_filter_side (chunk_score case_type courts keywords)
      st.content_documents 0)

/-- `search_structure(query, k)`: `None` index returns `[]`; otherwise the
cached query embedding is L2-normalized (`faiss.normalize_L2`) and searched.
The normalized query vector `qv` is a parameter here because exact square
roots leave ℚ; every claim below is independent of the query vector's value. -/
def search_structure (st : State) (qv : Vec) (k : Nat) :
    Except String (List SearchHit) :=
  searchIndex st.structure_index st.structure_documents qv k

/-- `search_content(query, k)`: same, content side. -/
def search_content (st : State) (qv : Vec) (k : Nat) :
    Except String (List SearchHit) :=
  searchIndex st.content_index st.content_documents qv k

/-- The dual search result dict (the wall-clock `search_time` field is not
modelled; a cache hit returns the stored dict verbatim, so that field too is
returned unchanged). -/
structure DualResult where
  structure_results : List SearchHit
  content_results : List SearchHit
  pre_filtered_structure : Nat
  pre_filtered_content : Nat
deriving DecidableEq, Repr

/-- The in-process query cache `self.query_cache` (a plain `dict`),
as an association list. -/
abbrev QueryCache := List (String × DualResult)

/-- `cache_key = f"{query}_{k}"`. -/
def cache_key (query : String) (k : Nat) : String :=
  query ++ "_" ++ toString k

/-- `optimized_dual_search(query, k)`: return the cached dict on a key hit;
on a miss run `pre_filter_documents` (its index lists are used only for the
two reported counts), run both full-index searches, record the new dict in
the cache and return it. `qvS`/`qvC` are the normalized query embeddings for
the two spaces. Exceptions escaping either search propagate (`.error`). -/
def optimized_dual_search (st : State) (cache : QueryCache)
    (qvS qvC : Vec) (query : String) (k : Nat) :
    Except String (DualResult × QueryCache) :=
  match cache.lookup (cache_key query k) with
  | some r => .ok (r, cache)
  | none =>
    let pf := pre_filter_documents st query
    match search_structure st qvS k with
    | .error e => .error e
    | .ok structure_results =>
      match search_content st qvC k with
      | .error e => .error e
      | .ok content_results =>
        let r : DualResult :=
          { structure_results := structure_results,
            content_results := content_results,
            pre_filtered_structure := pf.1.length,
            pre_filtered_content := pf.2.length }
        .ok (r, (cache_key query k, r) :: cache)

/-- The context-assembly step of `query(question, k)`:

    structure_contexts = [doc.get('text', '') for doc in results]
    structure_context = "\n\n".join(structure_contexts[:2])

The chunk count is capped at 2; each chunk's text is concatenated verbatim
(no per-chunk character truncation appears anywhere in the method). -/
def assemble_context (results : List SearchHit) : String :=
  String.intercalate "\n\n" ((results.map (fun h => h.doc.text)).take 2)

end ODI

/-! ## `VectorStore.get_embedding` (rag/vector.py) -/

namespace VS

/-- Outcome of the `requests.post` call to the Ollama embeddings endpoint:
a 200 response with a well-formed `embedding` field, a non-200 status code,
or a raised exception (connection failure, timeout, or a malformed 200 body
whose `['embedding']` access raises — all caught by the same `except`). -/
inductive OllamaResp
  | ok (embedding : List ℚ)
  | httpError (code : Nat)
  | exn (msg : String)

/-- `_create_fallback_embedding(text)`: a deterministic 4096-dimensional
pseudo-vector derived from the MD5 digest of the text; `hashBytes` is the
16-byte digest (the external `hashlib.md5(text.encode()).digest()`). -/
def create_fallback_embedding (hashBytes : List Nat) : List ℚ :=
  (List.range 4096).map (fun i => ((hashBytes.getD (i % 16) 0 : ℚ)) / 255)

/-- `get_embedding(text)`: return the backend embedding on success; on a
non-200 status or any exception, log a warning and silently return the
hash-derived fallback vector. The function has no error channel at all. -/
def get_embedding (resp : OllamaResp) (hashBytes : List Nat) : List ℚ :=
  match resp with
  | .ok e => e
  | .httpError _ => create_fallback_embedding hashBytes
  | .exn _ => create_fallback_embedding hashBytes

/-- The embedding error taxonomy of the spec. -/
inductive EmbErr
  | EmbeddingUnavailable
deriving DecidableEq

/-- Modelled from the spec: the `EmbeddingProvider.embed` contract the spec
prescribes in its place — "Must fail explicitly (`EmbeddingUnavailable`)
rather than silently substituting a degraded vector when the backend is
unreachable"; not implemented anywhere in the repository. -/
def spec_get_embedding (resp : OllamaResp) : Except EmbErr (List ℚ) :=
  match resp with
  | .ok e => .ok e
  | .httpError _ => .error .EmbeddingUnavailable
  | .exn _ => .error .EmbeddingUnavailable

end VS

/-! ## Lemmas about the result-building loop -/

theorem forall₂_mem_left {α β : Type} {P : α → β → Prop} :
    ∀ {l₁ : List α} {l₂ : List β}, List.Forall₂ P l₁ l₂ →
      ∀ x ∈ l₁, ∃ y ∈ l₂, P x y := by
  intro l₁ l₂ h
  induction h with
  | nil => intro x hx; cases hx
  | cons hab _ ih =>
    intro x hx
    rcases List.mem_cons.mp hx with rfl | hx
    · exact ⟨_, List.mem_cons_self .., hab⟩
    · rcases ih x hx with ⟨y, hy, hxy⟩
      exact ⟨y, List.mem_cons_of_mem _ hy, hxy⟩

theorem forall₂_map_eq {α β γ : Type} {f : α → γ} {g : β → γ} :
    ∀ {l₁ : List α} {l₂ : List β},
      List.Forall₂ (fun a b => f a = g b) l₁ l₂ → l₁.map f = l₂.map g := by
  intro l₁ l₂ h
  induction h with
  | nil => rfl
  | cons hab _ ih => simpa [hab] using ih

theorem forall₂_replicate_right {α β : Type} {P : α → β → Prop} {c : β} :
    ∀ {l : List α} {m : Nat}, List.Forall₂ P l (List.replicate m c) →
      ∀ x ∈ l, P x c := by
  intro l m h
  induction l generalizing m with
  | nil => intro x hx; cases hx
  | cons a l ih =>
    cases m with
    | zero => cases h
    | succ m =>
      rw [List.replicate_succ] at h
      rcases List.forall₂_cons.mp h with ⟨hac, hrest⟩
      intro x hx
      rcases List.mem_cons.mp hx with rfl | hx
      · exact hac
      · exact ih hrest x hx

/-- When every slot's index passes the `idx < len(docs)` guard and indexes a
real document, every slot is accepted: the loop returns one hit per slot,
scores copied from the slots, ranks consecutive from `i+1`. -/
theorem buildResultsAux_accepted {docs : List Doc} :
    ∀ (slots : List (ℚ × Int)) (i : Nat),
      (∀ p ∈ slots, p.2 < (docs.length : Int) ∧ (pyGet docs p.2).isSome) →
      ∃ res, buildResultsAux docs slots i = .ok res ∧
        List.Forall₂ (fun (h : SearchHit) (p : ℚ × Int) =>
          pyGet docs p.2 = some h.doc ∧ h.score = p.1) res slots ∧
        res.map (fun h => h.rank) = List.range' (i + 1) slots.length := by
  intro slots
  induction slots with
  | nil => exact fun i _ => ⟨[], rfl, List.Forall₂.nil, rfl⟩
  | cons p rest ih =>
    intro i hall
    obtain ⟨hlt, hsome⟩ := hall p (List.mem_cons_self ..)
    obtain ⟨d, hd⟩ := Option.isSome_iff_exists.mp hsome
    obtain ⟨tail, htail, hf2, hranks⟩ :=
      ih (i + 1) (fun q hq => hall q (List.mem_cons_of_mem _ hq))
    obtain ⟨s, idx⟩ := p
    refine ⟨{ doc := d, score := s, rank := i + 1 } :: tail, ?_, ?_, ?_⟩
    · rw [buildResultsAux, if_pos hlt, hd, htail]
    · exact List.forall₂_cons.mpr ⟨⟨hd, rfl⟩, hf2⟩
    · simp only [List.map_cons, hranks, List.length_cons, List.range'_succ]

/-- Splitting the loop across a concatenation of slot lists: positions keep
counting across the boundary. -/
theorem buildResultsAux_append {docs : List Doc} :
    ∀ (a b : List (ℚ × Int)) (i : Nat) (ra : List SearchHit),
      buildResultsAux docs a i = .ok ra →
      buildResultsAux docs (a ++ b) i =
        match buildResultsAux docs b (i + a.length) with
        | .error e => .error e
        | .ok rb => .ok (ra ++ rb) := by
  intro a
  induction a with
  | nil =>
    intro b i ra h
    injection h with h2
    subst h2
    simp only [List.nil_append, List.length_nil, Nat.add_zero]
    cases buildResultsAux docs b i <;> rfl
  | cons p rest ih =>
    intro b i ra h
    obtain ⟨s, idx⟩ := p
    by_cases hlt : idx < (docs.length : Int)
    · rw [buildResultsAux, if_pos hlt] at h
      cases hget : pyGet docs idx with
      | none => rw [hget] at h; cases h
      | some d =>
        rw [hget] at h
        cases hrest : buildResultsAux docs rest (i + 1) with
        | error e => rw [hrest] at h; cases h
        | ok tail =>
          rw [hrest] at h
          injection h with h2
          subst h2
          have hstep := ih b (i + 1) tail hrest
          show buildResultsAux docs ((s, idx) :: (rest ++ b)) i = _
          rw [buildResultsAux, if_pos hlt, hget, hstep]
          have harith : i + 1 + rest.length = i + ((s, idx) :: rest).length := by
            simp [List.length_cons]; omega
          rw [harith]
          cases buildResultsAux docs b (i + ((s, idx) :: rest).length) <;> rfl
    · rw [buildResultsAux, if_neg hlt] at h
      have hstep := ih b (i + 1) ra h
      show buildResultsAux docs ((s, idx) :: (rest ++ b)) i = _
      rw [buildResultsAux, if_neg hlt, hstep]
      have harith : i + 1 + rest.length = i + ((s, idx) :: rest).length := by
        simp [List.length_cons]; omega
      rw [harith]

/-- Slots whose index fails the `idx < len(docs)` guard are skipped without
touching the result (only the position counter advances). -/
theorem buildResultsAux_skipped {docs : List Doc} :
    ∀ (a : List (ℚ × Int)) (i : Nat),
      (∀ p ∈ a, ¬(p.2 < (docs.length : Int))) →
      buildResultsAux docs a i = .ok [] := by
  intro a
  induction a with
  | nil => intro i _; rfl
  | cons p rest ih =>
    intro i hall
    obtain ⟨s, idx⟩ := p
    rw [buildResultsAux, if_neg (hall (s, idx) (List.mem_cons_self ..))]
    exact ih (i + 1) (fun q hq => hall q (List.mem_cons_of_mem _ hq))

/-- On a non-empty document array the loop never raises: each slot with
index `≥ -1` is either skipped or resolves to a document. -/
theorem buildResultsAux_ok_of_ne_nil {docs : List Doc} (hd : docs ≠ []) :
    ∀ (slots : List (ℚ × Int)) (i : Nat),
      (∀ p ∈ slots, -1 ≤ p.2) →
      ∃ res, buildResultsAux docs slots i = .ok res := by
  have hlen : 0 < docs.length := List.length_pos.mpr hd
  intro slots
  induction slots with
  | nil => exact fun i _ => ⟨[], rfl⟩
  | cons p rest ih =>
    intro i hall
    obtain ⟨s, idx⟩ := p
    have hge : -1 ≤ idx := hall (s, idx) (List.mem_cons_self ..)
    obtain ⟨tail, htail⟩ := ih (i + 1) (fun q hq => hall q (List.mem_cons_of_mem _ hq))
    by_cases hlt : idx < (docs.length : Int)
    · have hsome : (pyGet docs idx).isSome := by
        rcases le_or_lt 0 idx with hpos | hneg
        · rw [pyGet, if_pos hpos]
          have : idx.toNat < docs.length := by omega
          rw [List.get?_eq_get this]; rfl
        · have hidx : idx = -1 := by omega
          subst hidx
          rw [pyGet, if_neg (by norm_num)]
          have h0 : (0:Int) ≤ (docs.length : Int) + (-1) := by omega
          rw [if_pos h0]
          have : ((docs.length : Int) + (-1)).toNat < docs.length := by omega
          rw [List.get?_eq_get this]; rfl
      obtain ⟨d, hd'⟩ := Option.isSome_iff_exists.mp hsome
      exact ⟨_, by rw [buildResultsAux, if_pos hlt, hd', htail]⟩
    · exact ⟨tail, by rw [buildResultsAux, if_neg hlt, htail]⟩

/-! ## Lemmas about the FAISS slot list -/

/-- The scored pair list of `faissSearch` before sorting. -/
def scoredOf (stored : List Vec) (qv : Vec) : List (ℚ × Int) :=
  ((List.range stored.length).zip stored).map (fun p => (dot qv p.2, (p.1 : Int)))

theorem faissSearch_eq (stored : List Vec) (qv : Vec) (k : Nat) :
    faissSearch stored qv k =
      (sortDesc (scoredOf stored qv)).take k ++
        List.replicate (k - ((sortDesc (scoredOf stored qv)).take k).length)
          (padScore, -1) := rfl

theorem length_scoredOf (stored : List Vec) (qv : Vec) :
    (scoredOf stored qv).length = stored.length := by
  simp [scoredOf]

theorem mem_scoredOf {stored : List Vec} {qv : Vec} {p : ℚ × Int}
    (hp : p ∈ scoredOf stored qv) :
    ∃ i v, i < stored.length ∧ v ∈ stored ∧ p = (dot qv v, (i : Int)) := by
  rcases List.mem_map.mp hp with ⟨⟨i, v⟩, hmem, rfl⟩
  have := List.of_mem_zip hmem
  exact ⟨i, v, List.mem_range.mp this.1, this.2, rfl⟩

/-- Every slot `faissSearch` emits carries an index `≥ -1`. -/
theorem faissSearch_idx_ge {stored : List Vec} {qv : Vec} {k : Nat}
    {p : ℚ × Int} (hp : p ∈ faissSearch stored qv k) : -1 ≤ p.2 := by
  rw [faissSearch_eq] at hp
  rcases List.mem_append.mp hp with h | h
  · have h1 : p ∈ sortDesc (scoredOf stored qv) := List.mem_of_mem_take h
    rcases mem_scoredOf (mem_sortDesc.mp h1) with ⟨i, v, _, _, rfl⟩
    simp; omega
  · have := List.eq_of_mem_replicate h
    subst this
    norm_num

theorem pyGet_nonneg {α : Type} {l : List α} {i : Int} (h : 0 ≤ i) :
    pyGet l i = l.get? i.toNat := if_pos h

theorem pyGet_neg_one {α : Type} {l : List α} (h : l ≠ []) :
    pyGet l (-1) = l.get? (l.length - 1) := by
  have hlen : 0 < l.length := List.length_pos.mpr h
  rw [pyGet, if_neg (by norm_num)]
  have h0 : (0:Int) ≤ (l.length : Int) + (-1) := by omega
  rw [if_pos h0]
  congr 1
  omega

/-- With matching cardinality (`len(stored) == len(docs)`) and a non-empty
document array, every slot `faissSearch` emits passes the guard and indexes
a real document (a padding slot's `-1` resolves to the LAST document). -/
theorem faissSearch_accepted {stored : List Vec} {docs : List Doc} {qv : Vec}
    {k : Nat} (hlen : stored.length = docs.length) (hne : docs ≠ []) :
    ∀ p ∈ faissSearch stored qv k,
      p.2 < (docs.length : Int) ∧ (pyGet docs p.2).isSome := by
  have hpos : 0 < docs.length := List.length_pos.mpr hne
  intro p hp
  rw [faissSearch_eq] at hp
  rcases List.mem_append.mp hp with h | h
  · have h1 : p ∈ sortDesc (scoredOf stored qv) := List.mem_of_mem_take h
    rcases mem_scoredOf (mem_sortDesc.mp h1) with ⟨i, v, hi, _, rfl⟩
    have hi' : i < docs.length := hlen ▸ hi
    constructor
    · show (i : Int) < (docs.length : Int); omega
    · rw [pyGet_nonneg (by positivity), Int.toNat_ofNat]
      rw [List.get?_eq_get hi']; rfl
  · have := List.eq_of_mem_replicate h
    subst this
    refine ⟨by show (-1 : Int) < _; omega, ?_⟩
    rw [pyGet_neg_one hne]
    have : docs.length - 1 < docs.length := by omega
    rw [List.get?_eq_get this]; rfl

/-- Scores of the slot list are descending, provided every genuine score is
at least the `-FLT_MAX` padding score (always true of float scores). -/
theorem faissSearch_pairwise {stored : List Vec} {qv : Vec} {k : Nat}
    (hfloat : ∀ v ∈ stored, padScore ≤ dot qv v) :
    (faissSearch stored qv k).Pairwise scoreGE := by
  rw [faissSearch_eq]
  refine List.pairwise_append.mpr ⟨?_, ?_, ?_⟩
  · exact List.Pairwise.sublist (List.take_sublist ..) (pairwise_sortDesc _)
  · refine List.pairwise_replicate.mpr (Or.inr ?_)
    exact le_refl _
  · intro x hx y hy
    have hx1 : x ∈ sortDesc (scoredOf stored qv) := List.mem_of_mem_take hx
    rcases mem_scoredOf (mem_sortDesc.mp hx1) with ⟨i, v, _, hv, rfl⟩
    have := List.eq_of_mem_replicate hy
    subst this
    exact hfloat v hv

/-! ## Claim C2 — rank ordering -/

/-- C2: for every `search(query, k)` call on a built index (stored-vector
count equal to the document count, at least one document; genuine scores
within float range, i.e. at least `-FLT_MAX`), the call succeeds and the
returned list is sorted by descending score with `rank` fields exactly
`1, 2, ..., len(results)`. -/
theorem search_rank_ordering (stored : List Vec) (docs : List Doc) (qv : Vec)
    (k : Nat) (hlen : stored.length = docs.length) (hne : docs ≠ [])
    (hfloat : ∀ v ∈ stored, padScore ≤ dot qv v) :
    ∃ r, ODI.search_structure
        { structure_index := some stored, structure_documents := docs } qv k
        = .ok r ∧
      r.Pairwise (fun a b => b.score ≤ a.score) ∧
      r.map (fun h => h.rank) = List.range' 1 r.length := by
  obtain ⟨res, hres, hf2, hranks⟩ :=
    @buildResultsAux_accepted docs (faissSearch stored qv k) 0
      (faissSearch_accepted hlen hne)
  refine ⟨res, hres, ?_, ?_⟩
  · have hmap : res.map (fun h => h.score)
        = (faissSearch stored qv k).map (fun p => p.1) :=
      forall₂_map_eq (List.Forall₂.imp (fun _ _ hpq => hpq.2) hf2)
    have hp : (faissSearch stored qv k).Pairwise scoreGE :=
      faissSearch_pairwise hfloat
    have hp2 : ((faissSearch stored qv k).map (fun p => p.1)).Pairwise
        (fun a b => b ≤ a) := List.pairwise_map.mpr hp
    rw [← hmap] at hp2
    exact List.pairwise_map.mp hp2
  · rw [hranks, hf2.length_eq]

def docA : Doc := { text := "d0" }

def docB : Doc := { text := "d1" }

/-- Witness for C2 at a concrete built index, with `k = 3` exercising the
padding slot as well. -/
theorem search_rank_ordering_witness :
    ([[1], [0]] : List Vec).length = [docA, docB].length ∧
    ([docA, docB] : List Doc) ≠ [] ∧
    (∀ v ∈ ([[1], [0]] : List Vec), padScore ≤ dot [1] v) ∧
    (∃ r, ODI.search_structure
        { structure_index := some [[1], [0]],
          structure_documents := [docA, docB] } [1] 3 = .ok r ∧
      r.Pairwise (fun a b => b.score ≤ a.score) ∧
      r.map (fun h => h.rank) = List.range' 1 r.length) :=
  ⟨rfl, by simp, by intro v hv; fin_cases hv <;> norm_num [padScore, dot],
    search_rank_ordering [[1], [0]] [docA, docB] [1] 3 rfl (by simp)
      (by intro v hv; fin_cases hv <;> norm_num [padScore, dot])⟩

/-! ## Claim C10 — `k` beyond index size: `-1` padding resolves to the last
document -/

/-- C10: when `k` exceeds the number of stored vectors, FAISS pads slots
with index `-1`; the `idx < len(documents)` guard accepts `-1` and Python
negative indexing appends the LAST document once per padding slot, so the
result has length `k` with the tail made of spurious copies of the final
document carrying the `-FLT_MAX` padding score — and on an empty document
array the same `-1` slot raises `IndexError`. -/
theorem search_negative_index_padding :
    (∀ (stored : List Vec) (docs : List Doc) (qv : Vec) (k : Nat),
      stored.length = docs.length → docs ≠ [] → docs.length < k →
      ∃ r, ODI.search_structure
          { structure_index := some stored, structure_documents := docs } qv k
          = .ok r ∧
        r.length = k ∧
        ∀ h ∈ r.drop docs.length,
          docs.getLast? = some h.doc ∧ h.score = padScore) ∧
    (∀ (stored : List Vec) (qv : Vec) (k : Nat), stored.length < k →
      ODI.search_structure
          { structure_index := some stored, structure_documents := [] } qv k
        = .error "IndexError: list index out of range") := by
  constructor
  · intro stored docs qv k hlen hne hk
    have hSlen : (sortDesc (scoredOf stored qv)).length = docs.length := by
      rw [length_sortDesc, length_scoredOf, hlen]
    have htop : (sortDesc (scoredOf stored qv)).take k
        = sortDesc (scoredOf stored qv) :=
      List.take_of_length_le (by omega)
    have heq : faissSearch stored qv k
        = sortDesc (scoredOf stored qv)
          ++ List.replicate (k - docs.length) (padScore, -1) := by
      rw [faissSearch_eq, htop, hSlen]
    have hacc := @faissSearch_accepted stored docs qv k hlen hne
    have hA : ∀ p ∈ sortDesc (scoredOf stored qv),
        p.2 < (docs.length : Int) ∧ (pyGet docs p.2).isSome := by
      intro p hp
      exact hacc p (by rw [heq]; exact List.mem_append_left _ hp)
    have hB : ∀ p ∈ List.replicate (k - docs.length)
        ((padScore, -1) : ℚ × Int),
        p.2 < (docs.length : Int) ∧ (pyGet docs p.2).isSome := by
      intro p hp
      exact hacc p (by rw [heq]; exact List.mem_append_right _ hp)
    obtain ⟨ra, hra, hf2a, _⟩ :=
      @buildResultsAux_accepted docs (sortDesc (scoredOf stored qv)) 0 hA
    obtain ⟨rb, hrb, hf2b, _⟩ :=
      @buildResultsAux_accepted docs
        (List.replicate (k - docs.length) (padScore, -1))
        (0 + (sortDesc (scoredOf stored qv)).length) hB
    have hsplit := @buildResultsAux_append docs
      (sortDesc (scoredOf stored qv))
      (List.replicate (k - docs.length) (padScore, -1)) 0 ra hra
    rw [hrb] at hsplit
    have hra_len : ra.length = docs.length := by
      rw [hf2a.length_eq, hSlen]
    refine ⟨ra ++ rb, ?_, ?_, ?_⟩
    · show buildResults docs (faissSearch stored qv k) = _
      rw [buildResults, heq, hsplit]
    · rw [List.length_append, hra_len, hf2b.length_eq,
        List.length_replicate]
      omega
    · intro h hh
      have hdrop : (ra ++ rb).drop docs.length = rb := by
        rw [← hra_len, List.drop_left]
      rw [hdrop] at hh
      have := forall₂_replicate_right hf2b h hh
      refine ⟨?_, this.2⟩
      rw [← this.1, pyGet_neg_one hne, List.getLast?_eq_get?]
  · intro stored qv k hk
    have hSlen : (sortDesc (scoredOf stored qv)).length = stored.length := by
      rw [length_sortDesc, length_scoredOf]
    have htop : (sortDesc (scoredOf stored qv)).take k
        = sortDesc (scoredOf stored qv) :=
      List.take_of_length_le (by omega)
    have heq : faissSearch stored qv k
        = sortDesc (scoredOf stored qv)
          ++ List.replicate (k - stored.length) (padScore, -1) := by
      rw [faissSearch_eq, htop, hSlen]
    have hskip : buildResultsAux ([] : List Doc)
        (sortDesc (scoredOf stored qv)) 0 = .ok [] := by
      apply buildResultsAux_skipped
      intro p hp
      rcases mem_scoredOf (mem_sortDesc.mp hp) with ⟨i, v, _, _, rfl⟩
      show ¬((i : Int) < (([] : List Doc).length : Int))
      simp
    have hsplit := @buildResultsAux_append ([] : List Doc)
      (sortDesc (scoredOf stored qv))
      (List.replicate (k - stored.length) (padScore, -1)) 0 [] hskip
    obtain ⟨m, hm⟩ : ∃ m, k - stored.length = m + 1 := ⟨k - stored.length - 1, by omega⟩
    have herr : buildResultsAux ([] : List Doc)
        (List.replicate (k - stored.length) (padScore, -1))
        (0 + (sortDesc (scoredOf stored qv)).length)
        = .error "IndexError: list index out of range" := by
      rw [hm, List.replicate_succ, buildResultsAux]
      rw [if_pos (by norm_num : (-1 : Int) < (([] : List Doc).length : Int))]
      rfl
    show buildResults ([] : List Doc) (faissSearch stored qv k) = _
    rw [buildResults, heq, hsplit, herr]

/-- Witness for C10: `k = 3` on a 2-document index duplicates the last
document in the padding slot; `k = 2` on an index whose document array is
empty raises. -/
theorem search_negative_index_padding_witness :
    (([[1], [2]] : List Vec).length = [docA, docB].length ∧
      ([docA, docB] : List Doc) ≠ [] ∧ [docA, docB].length < 3 ∧
      ∃ r, ODI.search_structure
          { structure_index := some [[1], [2]],
            structure_documents := [docA, docB] } [1] 3 = .ok r ∧
        r.length = 3 ∧
        ∀ h ∈ r.drop 2, [docA, docB].getLast? = some h.doc ∧
          h.score = padScore) ∧
    (([] : List Vec).length < 2 ∧
      ODI.search_structure
          { structure_index := some [], structure_documents := [] } [1] 2
        = .error "IndexError: list index out of range") :=
  ⟨⟨rfl, by simp, by simp,
    search_negative_index_padding.1 [[1], [2]] [docA, docB] [1] 3 rfl
      (by simp) (by simp)⟩,
   ⟨by simp, search_negative_index_padding.2 [] [1] 2 (by simp)⟩⟩

/-! ## Claim C7 — empty / absent index semantics -/

/-- C7 counterexample: a present-but-empty index (0 stored vectors, empty
document array, as produced by loading an empty `.faiss` file) RAISES
`IndexError` on `search(query, 1)` instead of returning `[]`: the `-1`
padding slot passes the `idx < len(documents)` guard (`-1 < 0`) and
`documents[-1]` fails on the empty list. -/
theorem empty_index_search_raises :
    ODI.search_structure
        { structure_index := some [], structure_documents := [] } [1] 1
      = .error "IndexError: list index out of range" := rfl

/-- C7 amended, the part of the claim that does hold: an ABSENT (`None`)
index returns `[]` without error, and the dual search with the structure
side absent still succeeds, reporting an empty structure list alongside the
content side's own results. -/
theorem absent_index_partial_degradation
    (stored : List Vec) (docs : List Doc) (qvS qvC : Vec) (q : String)
    (k : Nat) (cache : ODI.QueryCache)
    (hmiss : cache.lookup (ODI.cache_key q k) = none) (hne : docs ≠ []) :
    ODI.search_structure
        { structure_index := none, content_index := some stored,
          content_documents := docs } qvS k = .ok [] ∧
    ∃ r c2, ODI.optimized_dual_search
        { structure_index := none, content_index := some stored,
          content_documents := docs } cache qvS qvC q k = .ok (r, c2) ∧
      r.structure_results = [] ∧
      ODI.search_content
        { structure_index := none, content_index := some stored,
          content_documents := docs } qvC k = .ok r.content_results := by
  obtain ⟨rc, hrc⟩ :=
    @buildResultsAux_ok_of_ne_nil docs hne (faissSearch stored qvC k)
      0 (fun p hp => faissSearch_idx_ge hp)
  have hcontent : ODI.search_content
      { structure_index := none, content_index := some stored,
        content_documents := docs } qvC k = .ok rc := hrc
  refine ⟨rfl,
    { structure_results := [], content_results := rc,
      pre_filtered_structure :=
        (ODI.pre_filter_documents
          { structure_index := none, content_index := some stored,
            content_documents := docs } q).1.length,
      pre_filtered_content :=
        (ODI.pre_filter_documents
          { structure_index := none, content_index := some stored,
            content_documents := docs } q).2.length },
    (ODI.cache_key q k,
      { structure_results := [], content_results := rc,
        pre_filtered_structure :=
          (ODI.pre_filter_documents
            { structure_index := none, content_index := some stored,
              content_documents := docs } q).1.length,
        pre_filtered_content :=
          (ODI.pre_filter_documents
            { structure_index := none, content_index := some stored,
              content_documents := docs } q).2.length }) :: cache,
    ?_, rfl, by rw [hcontent]⟩
  unfold ODI.optimized_dual_search
  rw [hmiss, hcontent]
  rfl

/-- Witness for the amended C7 at a concrete state: structure index absent,
content index holding one vector/document, cold cache. -/
theorem absent_index_partial_degradation_witness :
    (([] : ODI.QueryCache).lookup (ODI.cache_key "q" 1) = none ∧
      ([docA] : List Doc) ≠ []) ∧
    (ODI.search_structure
        { structure_index := none, content_index := some [[1]],
          content_documents := [docA] } [1] 1 = .ok [] ∧
    ∃ r c2, ODI.optimized_dual_search
        { structure_index := none, content_index := some [[1]],
          content_documents := [docA] } [] [1] [1] "q" 1 = .ok (r, c2) ∧
      r.structure_results = [] ∧
      ODI.search_content
        { structure_index := none, content_index := some [[1]],
          content_documents := [docA] } [1] 1 = .ok r.content_results) :=
  ⟨⟨rfl, by simp⟩,
    absent_index_partial_degradation [[1]] [docA] [1] [1] "q" 1 [] rfl (by simp)⟩

/-! ## Claim C4 — load-time cardinality validation -/

/-- A persisted index whose `.faiss` file holds two vectors while the
parallel document JSON holds one record. -/
def fsMismatch : ODI.IndexFiles :=
  { structure_faiss := some [[1], [0]], structure_documents_json := [docA] }

/-- C4 counterexample: `load_indexes` accepts the mismatched pair without
any error (there is no cardinality comparison in the function), the
mismatch survives into the loaded state, and a query then runs and answers
— no `IndexCorrupt`-style failure happens at load or before queries. -/
theorem load_no_cardinality_check :
    (ODI.load_indexes fsMismatch).structure_documents.length = 1 ∧
    (ODI.load_indexes fsMismatch).structure_index = some [[1], [0]] ∧
    ([[1], [0]] : List Vec).length = 2 ∧
    ODI.search_structure (ODI.load_indexes fsMismatch) [1] 1
      = .ok [{ doc := docA, score := 1, rank := 1 }] :=
  ⟨rfl, rfl, rfl, by
    norm_num [ODI.search_structure, ODI.load_indexes, fsMismatch, searchIndex,
      buildResults, buildResultsAux, faissSearch, sortDesc, insertDesc,
      pyGet, dot]⟩

/-- C4 amended: `load_indexes` performs no cardinality validation — for ANY
vector/document pair, mismatched or not, the loaded state exposes the files
verbatim and (document array non-empty) queries run without any load-time
or query-time corruption check. -/
theorem load_indexes_no_validation (vecs : List Vec) (docs : List Doc)
    (qv : Vec) (k : Nat) (hmm : vecs.length ≠ docs.length)
    (hne : docs ≠ []) :
    (ODI.load_indexes ⟨some vecs, docs, none, []⟩).structure_index
        = some vecs ∧
    (ODI.load_indexes ⟨some vecs, docs, none, []⟩).structure_documents
        = docs ∧
    ∃ r, ODI.search_structure
        (ODI.load_indexes ⟨some vecs, docs, none, []⟩) qv k = .ok r := by
  refine ⟨rfl, rfl, ?_⟩
  exact buildResultsAux_ok_of_ne_nil hne (faissSearch vecs qv k) 0
    (fun p hp => faissSearch_idx_ge hp)

/-- Witness for the amended C4 at the concrete mismatched files. -/
theorem load_indexes_no_validation_witness :
    (([[1], [0]] : List Vec).length ≠ ([docA] : List Doc).length ∧
      ([docA] : List Doc) ≠ []) ∧
    ((ODI.load_indexes ⟨some [[1], [0]], [docA], none, []⟩).structure_index
        = some [[1], [0]] ∧
    (ODI.load_indexes ⟨some [[1], [0]], [docA], none, []⟩).structure_documents
        = [docA] ∧
    ∃ r, ODI.search_structure
        (ODI.load_indexes ⟨some [[1], [0]], [docA], none, []⟩) [1] 1
        = .ok r) :=
  ⟨⟨by simp, by simp⟩,
    load_indexes_no_validation [[1], [0]] [docA] [1] 1 (by simp) (by simp)⟩

/-! ## Claim C6 — cache idempotence -/

/-- C6: a second `optimized_dual_search(query, k)` on the state and cache
left by a first successful call returns the identical result dict (all
fields equal — it is the stored dict itself) and leaves the cache unchanged:
the second call is a hit on the key `f"{query}_{k}"`. -/
theorem dual_search_cache_idempotent (st : ODI.State) (cache : ODI.QueryCache)
    (qvS qvC : Vec) (q : String) (k : Nat) (r : ODI.DualResult)
    (c2 : ODI.QueryCache)
    (h : ODI.optimized_dual_search st cache qvS qvC q k = .ok (r, c2)) :
    ODI.optimized_dual_search st c2 qvS qvC q k = .ok (r, c2) := by
  unfold ODI.optimized_dual_search at h ⊢
  cases h0 : cache.lookup (ODI.cache_key q k) with
  | some r0 =>
    rw [h0] at h
    injection h with h1
    injection h1 with hr hc
    subst hr
    subst hc
    rw [h0]
  | none =>
    rw [h0] at h
    cases hs : ODI.search_structure st qvS k with
    | error e => rw [hs] at h; cases h
    | ok rs =>
      rw [hs] at h
      cases hc : ODI.search_content st qvC k with
      | error e => rw [hc] at h; cases h
      | ok rc =>
        rw [hc] at h
        injection h with h1
        injection h1 with hr hc2
        subst hr
        subst hc2
        simp [List.lookup]

/-- Witness for C6: a cold-cache call on an empty state followed by the
warm-cache call. -/
theorem dual_search_cache_idempotent_witness :
    (ODI.optimized_dual_search {} [] [1] [1] "bail application" 3
      = .ok (⟨[], [], 0, 0⟩,
          [(ODI.cache_key "bail application" 3, ⟨[], [], 0, 0⟩)])) ∧
    ODI.optimized_dual_search {}
        [(ODI.cache_key "bail application" 3, ⟨[], [], 0, 0⟩)]
        [1] [1] "bail application" 3
      = .ok (⟨[], [], 0, 0⟩,
          [(ODI.cache_key "bail application" 3, ⟨[], [], 0, 0⟩)]) :=
  ⟨rfl, dual_search_cache_idempotent {} [] [1] [1] "bail application" 3
    ⟨[], [], 0, 0⟩ [(ODI.cache_key "bail application" 3, ⟨[], [], 0, 0⟩)] rfl⟩

/-! ## Claim C9 — no bound, no eviction on the query cache -/

/-- A freshly constructed interface state with no indexes (both searches
succeed with `[]`, isolating pure cache behavior). -/
def freshState : ODI.State := {}

/-- The query string `'a' * i`, giving pairwise-distinct queries. -/
def aQuery (i : Nat) : String := String.mk (List.replicate i 'a')

def distinctQueries (n : Nat) : List String := (List.range n).map aQuery

/-- Issue a sequence of `optimized_dual_search` calls, threading the query
cache exactly as the long-lived `self.query_cache` dict is threaded. -/
def runDistinct (qs : List String) (k : Nat) (cache : ODI.QueryCache) :
    ODI.QueryCache :=
  qs.foldl (fun c q =>
    match ODI.optimized_dual_search freshState c [1] [1] q k with
    | .ok p => p.2
    | .error _ => c) cache

theorem fresh_miss_step (c : ODI.QueryCache) (q : String) (k : Nat)
    (h : c.lookup (ODI.cache_key q k) = none) :
    ODI.optimized_dual_search freshState c [1] [1] q k =
      .ok (⟨[], [], 0, 0⟩, (ODI.cache_key q k, ⟨[], [], 0, 0⟩) :: c) := by
  unfold ODI.optimized_dual_search
  rw [h]
  rfl

theorem aQuery_length (i : Nat) : (aQuery i).length = i := by
  show (List.replicate i 'a').length = i
  exact List.length_replicate ..

theorem cache_key_aQuery_inj (k : Nat) :
    Function.Injective (fun i => ODI.cache_key (aQuery i) k) := by
  intro i j h
  have hl := congrArg String.length h
  simp only [ODI.cache_key, String.length_append, aQuery_length] at hl
  omega

/-- Every miss inserts one entry and nothing is ever evicted: over any
query sequence with pairwise-distinct cache keys, none already cached, the
cache grows by exactly the number of calls. -/
theorem runDistinct_grows : ∀ (qs : List String) (c : ODI.QueryCache)
    (k : Nat), (qs.map (fun q => ODI.cache_key q k)).Nodup →
    (∀ q ∈ qs, c.lookup (ODI.cache_key q k) = none) →
    (runDistinct qs k c).length = c.length + qs.length := by
  intro qs
  induction qs with
  | nil => intro c k _ _; simp [runDistinct]
  | cons q rest ih =>
    intro c k hnodup hmiss
    have hq := hmiss q (List.mem_cons_self ..)
    have hstep := fresh_miss_step c q k hq
    have hfold : runDistinct (q :: rest) k c =
        runDistinct rest k ((ODI.cache_key q k, ⟨[], [], 0, 0⟩) :: c) := by
      rw [runDistinct, List.foldl_cons, hstep]
      rfl
    rw [hfold]
    rw [List.map_cons] at hnodup
    rcases List.nodup_cons.mp hnodup with ⟨hhead, htail⟩
    have hmiss2 : ∀ q2 ∈ rest,
        ((ODI.cache_key q k, (⟨[], [], 0, 0⟩ : ODI.DualResult)) :: c).lookup
          (ODI.cache_key q2 k) = none := by
      intro q2 hq2
      have hne : ODI.cache_key q2 k ≠ ODI.cache_key q k := by
        intro heq
        exact hhead (heq ▸ List.mem_map_of_mem _ hq2)
      rw [List.lookup]
      rw [beq_false_of_ne hne]
      exact hmiss q2 (List.mem_cons_of_mem _ hq2)
    rw [ih ((ODI.cache_key q k, ⟨[], [], 0, 0⟩) :: c) k htail hmiss2]
    simp
    omega

/-- After `n` retrievals with pairwise-distinct queries the query cache
holds exactly `n` entries. -/
theorem runDistinct_length_eq (n k : Nat) :
    (runDistinct (distinctQueries n) k []).length = n := by
  have hmap : (distinctQueries n).map (fun q => ODI.cache_key q k)
      = (List.range n).map (fun i => ODI.cache_key (aQuery i) k) := by
    rw [distinctQueries, List.map_map]
    rfl
  have hnodup : ((distinctQueries n).map (fun q => ODI.cache_key q k)).Nodup := by
    rw [hmap]
    exact (List.nodup_range n).map (cache_key_aQuery_inj k)
  have := runDistinct_grows (distinctQueries n) [] k hnodup (fun q _ => rfl)
  simpa [distinctQueries] using this

/-- C9 counterexample: after 1001 retrievals with distinct `(query, k)`
keys the cache holds 1001 entries — beyond 1000, the only capacity bound
appearing anywhere in the class (the embedding `lru_cache(maxsize=1000)`),
and growing without any fixed bound. -/
theorem query_cache_exceeds_bound :
    (runDistinct (distinctQueries 1001) 1 []).length = 1001 ∧
      1000 < (runDistinct (distinctQueries 1001) 1 []).length := by
  have h := runDistinct_length_eq 1001 1
  exact ⟨h, by rw [h]; norm_num⟩

/-- C9 amended: `self.query_cache` is a plain unbounded dict — after `n`
retrieval calls with distinct `(query, k)` keys it holds exactly `n`
entries, for every `n`; no eviction policy exists. -/
theorem query_cache_unbounded (n k : Nat) :
    (runDistinct (distinctQueries n) k []).length = n :=
  runDistinct_length_eq n k

/-! ## Claim C5 — pre-filter scoring, and whether the search uses it -/

/-- Index membership for one side of the pre-filter loop. -/
theorem pre_filter_side_mem (score : Doc → ℚ) :
    ∀ (ds : List Doc) (i0 i : Nat),
      i ∈ ODI.pre_filter_side score ds i0 ↔
        ∃ j d, ds.get? j = some d ∧ i = i0 + j ∧ 0 < score d := by
  intro ds
  induction ds with
  | nil =>
    intro i0 i
    simp [ODI.pre_filter_side]
  | cons d ds ih =>
    intro i0 i
    rw [ODI.pre_filter_side]
    by_cases hs : 0 < score d
    · rw [if_pos hs]
      simp only [List.mem_cons, ih (i0 + 1) i]
      constructor
      · rintro (rfl | ⟨j, d2, hget, rfl, hd2⟩)
        · exact ⟨0, d, rfl, by omega, hs⟩
        · exact ⟨j + 1, d2, hget, by omega, hd2⟩
      · rintro ⟨j, d2, hget, rfl, hd2⟩
        cases j with
        | zero =>
          left
          omega
        | succ j =>
          right
          exact ⟨j, d2, hget, by omega, hd2⟩
    · rw [if_neg hs]
      rw [ih (i0 + 1) i]
      constructor
      · rintro ⟨j, d2, hget, rfl, hd2⟩
        exact ⟨j + 1, d2, hget, by omega, hd2⟩
      · rintro ⟨j, d2, hget, rfl, hd2⟩
        cases j with
        | zero =>
          injection hget with hd2eq
          subst hd2eq
          exact absurd hd2 hs
        | succ j =>
          exact ⟨j, d2, hget, by omega, hd2⟩

def docZq : Doc := { text := "zq here" }

def docOther : Doc := { text := "other" }

/-- A loaded interface whose structure corpus holds two chunks: index 0
(`docZq`, matching the query keyword) and index 1 (`docOther`, matching
nothing), with stored vectors making index 1 the nearest neighbor. -/
def stC5 : ODI.State :=
  { structure_index := some [[0], [1]], structure_documents := [docZq, docOther] }

/-- C5 counterexample: for query `"zq"` with `k = 1`, pre-filtering selects
exactly the candidate set `{0}` — a count of 1, NOT below `k` — yet the
vector search runs over the full index and returns document 1, the chunk
that scored 0 and was excluded from the candidate set. The candidate lists
feed only the reported counts; no restriction and no `count < k` fallback
policy exists. -/
theorem pre_filter_candidates_unused :
    ODI.pre_filter_documents stC5 "zq" = ([0], []) ∧
    ODI.optimized_dual_search stC5 [] [1] [1] "zq" 1
      = .ok (⟨[{ doc := docOther, score := 1, rank := 1 }], [], 1, 0⟩,
          [(ODI.cache_key "zq" 1,
            ⟨[{ doc := docOther, score := 1, rank := 1 }], [], 1, 0⟩)]) ∧
    stC5.structure_documents.get? 1 = some docOther ∧
    (1 : Nat) ∉ [0] := by
  have hs1 : (0:ℚ) < ODI.chunk_score none [] ["zq"] docZq := by
    simp only [ODI.chunk_score]
    rw [if_neg (by decide), if_neg (by decide)]
    rw [show (["zq"].filter (fun kw => ODI.strContains
        (ODI.strLower (docZq.title.getD "" ++ " " ++ docZq.text)) kw)).length
        = 1 from by decide]
    norm_num
  have hs2 : ¬ (0:ℚ) < ODI.chunk_score none [] ["zq"] docOther := by
    simp only [ODI.chunk_score]
    rw [if_neg (by decide), if_neg (by decide)]
    rw [show (["zq"].filter (fun kw => ODI.strContains
        (ODI.strLower (docOther.title.getD "" ++ " " ++ docOther.text))
        kw)).length = 0 from by decide]
    norm_num
  have hpf : ODI.pre_filter_documents stC5 "zq" = ([0], []) := by
    simp only [ODI.pre_filter_documents]
    rw [show ODI.extract_case_type "zq" = none from by decide]
    rw [show ODI.wordsOf (ODI.strLower "zq") = ["zq"] from by decide]
    rw [show (ODI.metadata_courts stC5).filter
        (fun c => ODI.strContains (ODI.strLower "zq") (ODI.strLower c))
        = [] from by decide]
    simp [ODI.pre_filter_side, hs1, hs2, stC5]
  have hss : ODI.search_structure stC5 [1] 1
      = .ok [{ doc := docOther, score := 1, rank := 1 }] := by
    norm_num [ODI.search_structure, stC5, searchIndex, buildResults,
      buildResultsAux, faissSearch, sortDesc, insertDesc, pyGet, dot]
  have hsc : ODI.search_content stC5 [1] 1 = .ok [] := rfl
  refine ⟨hpf, ?_, rfl, by simp⟩
  unfold ODI.optimized_dual_search
  rw [show ([] : ODI.QueryCache).lookup (ODI.cache_key "zq" 1) = none from rfl]
  rw [hss, hsc]
  simp [hpf]

/-- C5 amended: pre-filtering scores each chunk +3 for a case-type match,
+2 for a court match and +0.5 per keyword occurrence, and the candidate
lists contain exactly the indices of chunks scoring above zero — but the
candidate set never reaches the vector search: on every cache miss
`optimized_dual_search` searches the FULL index on both sides whatever the
candidate counts are (there is no `count < k` fallback condition), and the
pre-filter output surfaces only as the two reported counts. -/
theorem pre_filter_scoring_and_search_independence :
    (∀ (st : ODI.State) (q : String) (i : Nat),
      i ∈ (ODI.pre_filter_documents st q).1 ↔
        ∃ d, st.structure_documents.get? i = some d ∧
          0 < ODI.chunk_score (ODI.extract_case_type q)
            ((ODI.metadata_courts st).filter
              (fun c => ODI.strContains (ODI.strLower q) (ODI.strLower c)))
            (ODI.wordsOf (ODI.strLower q)) d) ∧
    (∀ (st : ODI.State) (cache : ODI.QueryCache) (qvS qvC : Vec)
      (q : String) (k : Nat) (rs rc : List SearchHit),
      cache.lookup (ODI.cache_key q k) = none →
      ODI.search_structure st qvS k = .ok rs →
      ODI.search_content st qvC k = .ok rc →
      ODI.optimized_dual_search st cache qvS qvC q k = .ok
        (⟨rs, rc, (ODI.pre_filter_documents st q).1.length,
          (ODI.pre_filter_documents st q).2.length⟩,
         (ODI.cache_key q k,
          ⟨rs, rc, (ODI.pre_filter_documents st q).1.length,
            (ODI.pre_filter_documents st q).2.length⟩) :: cache)) := by
  constructor
  · intro st q i
    constructor
    · intro hi
      obtain ⟨j, d, hget, hij, hd⟩ :=
        (pre_filter_side_mem _ st.structure_documents 0 i).mp hi
      have hj : j = i := by omega
      subst hj
      exact ⟨d, hget, hd⟩
    · rintro ⟨d, hget, hd⟩
      exact (pre_filter_side_mem _ st.structure_documents 0 i).mpr
        ⟨i, d, hget, by omega, hd⟩
  · intro st cache qvS qvC q k rs rc hmiss hss hsc
    unfold ODI.optimized_dual_search
    rw [hmiss, hss, hsc]

/-- Witness for the amended C5 at the concrete two-document state. -/
theorem pre_filter_scoring_witness :
    (0 ∈ (ODI.pre_filter_documents stC5 "zq").1 ↔
      ∃ d, stC5.structure_documents.get? 0 = some d ∧
        0 < ODI.chunk_score (ODI.extract_case_type "zq")
          ((ODI.metadata_courts stC5).filter
            (fun c => ODI.strContains (ODI.strLower "zq") (ODI.strLower c)))
          (ODI.wordsOf (ODI.strLower "zq")) d) ∧
    (([] : ODI.QueryCache).lookup (ODI.cache_key "q" 2) = none ∧
      ODI.optimized_dual_search ({} : ODI.State) [] [1] [1] "q" 2 = .ok
        (⟨[], [], (ODI.pre_filter_documents ({} : ODI.State) "q").1.length,
          (ODI.pre_filter_documents ({} : ODI.State) "q").2.length⟩,
         (ODI.cache_key "q" 2,
          ⟨[], [], (ODI.pre_filter_documents ({} : ODI.State) "q").1.length,
            (ODI.pre_filter_documents ({} : ODI.State) "q").2.length⟩) :: [])) :=
  ⟨pre_filter_scoring_and_search_independence.1 stC5 "zq" 0,
   rfl,
   pre_filter_scoring_and_search_independence.2 {} [] [1] [1] "q" 2 [] []
     rfl rfl rfl⟩

/-! ## Claim C1 — L2 normalization of stored and query vectors -/

/-- An embedding backend returning the (non-unit) vector `[2]` for every
input; the build and search paths apply no normalization of their own, so
everything downstream sees this vector as-is. -/
def enc0 : String → Vec := fun _ => [2]

def chunkX : Doc := { text := "x" }

/-- The index built by `DualRAGProcessor.build_structure_index` over one
chunk with the `enc0` backend. -/
def stBuilt : DRP.State := DRP.build_structure_index enc0 DRP.init [chunkX]

/-- C1 counterexample: `build_structure_index` stores the raw encoder
output `[2]` — squared norm 4, not 1 — and `search_structure` (which does
not normalize the query either) returns the raw inner product 4 as the
similarity score, outside `[-1, 1]`. No normalization step exists on either
path. -/
theorem build_and_search_unnormalized :
    stBuilt.structure_index = some [[2]] ∧
    normSq [2] ≠ 1 ∧
    DRP.search_structure enc0 stBuilt "q" 1
      = .ok [{ doc := chunkX, score := 4, rank := 1 }] ∧
    ¬ ((4:ℚ) ≤ 1) := by
  refine ⟨rfl, by norm_num [normSq], ?_, by norm_num⟩
  norm_num [DRP.search_structure, stBuilt, DRP.build_structure_index,
    DRP.init, enc0, searchIndex, buildResults, buildResultsAux, faissSearch,
    sortDesc, insertDesc, pyGet, dot]

/-- C1 amended: the code performs no normalization — scores are raw inner
products of raw encoder outputs — so the `[-1, 1]` bound holds exactly when
the external encoder already emits unit vectors (and `k` does not exceed
the corpus, avoiding the `-FLT_MAX` padding scores): under that assumption
every returned score lies in `[-1, 1]` by Cauchy–Schwarz. -/
theorem search_scores_bounded_of_unit_encoder (enc : String → Vec)
    (chunks : List Doc) (q : String) (k : Nat)
    (hu : ∀ s, normSq (enc s) = 1)
    (hne : chunks ≠ []) (hk : k ≤ chunks.length) :
    ∃ r, DRP.search_structure enc
        (DRP.build_structure_index enc DRP.init chunks) q k = .ok r ∧
      ∀ h ∈ r, -1 ≤ h.score ∧ h.score ≤ 1 := by
  have hemp : chunks.isEmpty = false := by
    cases chunks with
    | nil => exact absurd rfl hne
    | cons c cs => rfl
  have hbuild : DRP.build_structure_index enc DRP.init chunks =
      { structure_index := some (chunks.map (fun c => enc c.text)),
        structure_documents := chunks } := by
    rw [DRP.build_structure_index, hemp]
    rfl
  rw [DRP.search_structure, hbuild]
  have hlen : (chunks.map (fun c => enc c.text)).length = chunks.length :=
    List.length_map ..
  obtain ⟨res, hres, hf2, _⟩ :=
    @buildResultsAux_accepted chunks
      (faissSearch (chunks.map (fun c => enc c.text)) (enc q) k) 0
      (faissSearch_accepted hlen hne)
  refine ⟨res, hres, ?_⟩
  intro h hh
  obtain ⟨p, hp, _, hscore⟩ := forall₂_mem_left hf2 h hh
  have hpads : k - ((sortDesc (scoredOf (chunks.map (fun c => enc c.text))
      (enc q))).take k).length = 0 := by
    rw [List.length_take, length_sortDesc, length_scoredOf, hlen]
    omega
  rw [faissSearch_eq, hpads] at hp
  rcases List.mem_append.mp hp with htop | hpad
  · rcases mem_scoredOf (mem_sortDesc.mp (List.mem_of_mem_take htop)) with
      ⟨i, v, _, hv, rfl⟩
    obtain ⟨c, _, rfl⟩ := List.mem_map.mp hv
    have hb : (dot (enc q) (enc c.text)) ^ 2 ≤ 1 := by
      have := dot_sq_le (enc q) (enc c.text)
      rw [hu q, hu c.text] at this
      simpa using this
    rw [hscore]
    constructor
    · nlinarith [hb, sq_nonneg (dot (enc q) (enc c.text) + 1)]
    · nlinarith [hb, sq_nonneg (dot (enc q) (enc c.text) - 1)]
  · exact absurd hpad (by simp)

def encUnit : String → Vec := fun _ => [3 / 5, 4 / 5]

/-- Witness for the amended C1 with a concrete unit-norm encoder. -/
theorem search_scores_bounded_witness :
    (∀ s, normSq (encUnit s) = 1) ∧ ([chunkX] : List Doc) ≠ [] ∧ 1 ≤ 1 ∧
    (∃ r, DRP.search_structure encUnit
        (DRP.build_structure_index encUnit DRP.init [chunkX]) "q" 1
        = .ok r ∧ ∀ h ∈ r, -1 ≤ h.score ∧ h.score ≤ 1) :=
  ⟨fun s => by norm_num [normSq, encUnit], by simp, le_refl 1,
    search_scores_bounded_of_unit_encoder encUnit [chunkX] "q" 1
      (fun s => by norm_num [normSq, encUnit]) (by simp) (by simp)⟩

/-! ## Claim C8 — context assembly: chunk count capped, chunk size not -/

/-- A retrieval hit whose chunk text is `n` characters long. -/
def bigHit (n : Nat) : SearchHit :=
  { doc := { text := String.mk (List.replicate n 'a') }, score := 1, rank := 1 }

theorem assemble_context_bigHit (n : Nat) :
    ODI.assemble_context [bigHit n] = String.mk (List.replicate n 'a') := rfl

theorem assemble_context_bigHit_length (n : Nat) :
    (ODI.assemble_context [bigHit n]).length = n := by
  rw [assemble_context_bigHit]
  show (List.replicate n 'a').length = n
  exact List.length_replicate ..

/-- C8 counterexample: a single selected chunk of 100000 characters passes
through context assembly verbatim — the assembled context IS the whole
chunk, 100000 characters long, far beyond any fixed per-chunk character
budget; no truncation happens before concatenation. -/
theorem assemble_context_no_truncation :
    ODI.assemble_context [bigHit 100000]
      = String.mk (List.replicate 100000 'a') ∧
    (ODI.assemble_context [bigHit 100000]).length = 100000 :=
  ⟨assemble_context_bigHit 100000, assemble_context_bigHit_length 100000⟩

/-- C8 amended: `query` bounds the NUMBER of chunks (only the first 2 per
side are concatenated) but not the characters per chunk: each selected
chunk's text enters the context verbatim, so the total context length grows
linearly with chunk size — for every `n` there is a single-chunk input
whose assembled context has length exactly `n`. -/
theorem assemble_context_caps_count_not_size :
    (∀ rs : List SearchHit,
      ODI.assemble_context rs = ODI.assemble_context (rs.take 2)) ∧
    (∀ n : Nat, (ODI.assemble_context [bigHit n]).length = n) := by
  constructor
  · intro rs
    rw [ODI.assemble_context, ODI.assemble_context, List.map_take,
      List.take_take, Nat.min_self]
  · exact assemble_context_bigHit_length

/-! ## Claim C3 — embedding failure handling -/

/-- C3 counterexample: with the backend unreachable (HTTP 500) or raising,
`get_embedding` returns the hash-derived fallback vector — a real non-empty
vector silently substituted for the failed embedding — while the spec's
prescribed contract (`spec_get_embedding`) fails with
`EmbeddingUnavailable` at the same input. The function's return type has no
error channel at all. -/
theorem get_embedding_silent_fallback :
    VS.get_embedding (.httpError 500) (List.replicate 16 7)
      = VS.create_fallback_embedding (List.replicate 16 7) ∧
    VS.get_embedding (.exn "connection refused") (List.replicate 16 7)
      = VS.create_fallback_embedding (List.replicate 16 7) ∧
    VS.spec_get_embedding (.httpError 500) = .error .EmbeddingUnavailable ∧
    VS.get_embedding (.httpError 500) (List.replicate 16 7) ≠ [] := by
  refine ⟨rfl, rfl, rfl, ?_⟩
  intro h
  have hlen := congrArg List.length h
  simp [VS.get_embedding, VS.create_fallback_embedding] at hlen

/-- C3 amended: on any non-200 status or any exception (including a
malformed 200 body, whose `['embedding']` access raises into the same
handler) `get_embedding` silently returns the deterministic hash-derived
4096-dimensional fallback vector — entry `i` is `digest[i % 16] / 255` —
and only a well-formed 200 response yields the backend's embedding; no
error is ever propagated. -/
theorem get_embedding_fallback_semantics :
    (∀ (code : Nat) (h : List Nat),
      VS.get_embedding (.httpError code) h = VS.create_fallback_embedding h) ∧
    (∀ (msg : String) (h : List Nat),
      VS.get_embedding (.exn msg) h = VS.create_fallback_embedding h) ∧
    (∀ (e : List ℚ) (h : List Nat), VS.get_embedding (.ok e) h = e) ∧
    (∀ h : List Nat, (VS.create_fallback_embedding h).length = 4096) ∧
    (∀ (h : List Nat) (i : Nat), i < 4096 →
      (VS.create_fallback_embedding h).get? i
        = some ((h.getD (i % 16) 0 : ℚ) / 255)) := by
  refine ⟨fun _ _ => rfl, fun _ _ => rfl, fun _ _ => rfl, ?_, ?_⟩
  · intro h
    simp [VS.create_fallback_embedding]
  · intro h i hi
    simp only [VS.create_fallback_embedding]
    rw [List.get?_map, List.get?_range hi]
    rfl

/-- Witness for the amended C3 at a concrete digest and index. -/
theorem get_embedding_fallback_witness :
    (0 : Nat) < 4096 ∧
    (VS.create_fallback_embedding (List.replicate 16 7)).get? 0
      = some (((List.replicate 16 7 : List Nat).getD (0 % 16) 0 : ℚ) / 255) ∧
    VS.get_embedding (.httpError 404) (List.replicate 16 7)
      = VS.create_fallback_embedding (List.replicate 16 7) :=
  ⟨by norm_num,
    get_embedding_fallback_semantics.2.2.2.2 (List.replicate 16 7) 0
      (by norm_num),
    get_embedding_fallback_semantics.1 404 (List.replicate 16 7)⟩
